import Mathlib

/-!
Verification of the natural-language message classification and field-extraction
engine of the whatsapp-expense-tracker repository
(`src/nlp/message_processor.py`, class `MessageProcessor`).

The engine is embedded shallowly:

* text is modelled as `List Char` (Python `str`, one entry per code point);
* Python regular-expression character class `\d` is modelled as the ASCII
  decimal digits (`Char.isDigit`), `\s` as whitespace (`Char.isWhitespace`);
* Python floats are modelled as rationals (`ℚ`); every numeral the money
  patterns can capture is an exact decimal, so `ℚ` represents it exactly;
* `re.IGNORECASE` is modelled by comparing characters through `Char.toLower`
  (the keyword tables are ASCII-lowercase apart from accented letters, which
  Python's lowercasing also leaves unchanged on lowercase input);
* the spaCy tagger consulted by the category-extraction fallback is an external
  collaborator; it is abstracted as an oracle parameter that returns, for a
  message, the list of its tokens as (part-of-speech tag, stop-word flag,
  lemma) triples, exactly the fields the fallback reads;
* the `timestamp` entry of the result dictionary (wall-clock time) is omitted
  from the model: no claim mentions it and it is not a function of the input.
-/

namespace ExpenseNLP

/-- `String.data`: view a Lean string literal as the `List Char` the model works on. -/
def s2l (s : String) : List Char := s.data

/-- Model of Python's `\s` / `str.split()` / `str.strip()` whitespace test. -/
def isSpaceChar (c : Char) : Bool := c.isWhitespace

/-- Model of Python's `\w` (word character): ASCII alphanumerics, underscore,
and any non-ASCII character (Python's Unicode `\w` covers all the accented
letters appearing in the keyword tables). -/
def isWordChar (c : Char) : Bool := c.isAlphanum || c == '_' || decide (128 ≤ c.toNat)

/-- `str.lower()` character by character. -/
def lowerL (s : List Char) : List Char := s.map Char.toLower

/-- `str.strip()`: drop leading and trailing whitespace. -/
def stripWS (s : List Char) : List Char :=
  ((s.dropWhile isSpaceChar).reverse.dropWhile isSpaceChar).reverse

/-- `k` is a leading segment of `s` (exact character equality). -/
def leadsIn : List Char → List Char → Bool
  | [], _ => true
  | _ :: _, [] => false
  | k :: ks, c :: cs => k == c && leadsIn ks cs

/-- Python's substring test `k in s`. -/
def occursIn (k : List Char) : List Char → Bool
  | [] => leadsIn k []
  | c :: rest => leadsIn k (c :: rest) || occursIn k rest

/-! ### Money patterns (`MessageProcessor.money_patterns`)

The three regex families
`(?:R\$\s*)?(\d+(?:[.,]\d{2})?)`, `(\d+)\s*reais?`, `(\d+)\s*(?:pila|pratas?)`
are embedded as matchers that try to match at the head of a suffix of the
message and return the captured group together with the remaining text after
the whole match. -/

/-- Attempt `(\d+(?:[.,]\d{2})?)` at the head of `s`: a maximal digit run,
optionally followed by `.` or `,` and exactly two digits.
Returns (capture, text after the match). -/
def matchNumAt (s : List Char) : Option (List Char × List Char) :=
  let ds := s.takeWhile Char.isDigit
  let rest := s.dropWhile Char.isDigit
  if ds = [] then none
  else
    match rest with
    | c :: d1 :: d2 :: rest2 =>
      if (c = '.' ∨ c = ',') ∧ d1.isDigit ∧ d2.isDigit then
        some (ds ++ [c, d1, d2], rest2)
      else some (ds, rest)
    | _ => some (ds, rest)

/-- Attempt pattern family 1, `(?:R\$\s*)?(\d+(?:[.,]\d{2})?)`, at the head of
`s` (the `R` is case-insensitive, matching `re.IGNORECASE`).  If the optional
`R$` prefix is taken but no numeral follows, the regex engine backtracks and
retries without the prefix. -/
def matchP1At (s : List Char) : Option (List Char × List Char) :=
  match s with
  | c1 :: c2 :: rest =>
    if (c1 = 'r' ∨ c1 = 'R') ∧ c2 = '$' then
      match matchNumAt (rest.dropWhile isSpaceChar) with
      | some r => some r
      | none => matchNumAt (c1 :: c2 :: rest)
    else matchNumAt (c1 :: c2 :: rest)
  | _ => matchNumAt s

/-- Case-insensitive literal match at the head of the text; returns the rest. -/
def matchLit : List Char → List Char → Option (List Char)
  | [], s => some s
  | _ :: _, [] => none
  | k :: ks, c :: cs => if c.toLower = k.toLower then matchLit ks cs else none

/-- Attempt pattern family 2, `(\d+)\s*reais?`, at the head of `s`. -/
def matchP2At (s : List Char) : Option (List Char × List Char) :=
  let ds := s.takeWhile Char.isDigit
  let rest := (s.dropWhile Char.isDigit).dropWhile isSpaceChar
  if ds = [] then none
  else
    match matchLit (s2l "reai") rest with
    | none => none
    | some rest2 =>
      match rest2 with
      | c :: rest3 => if c.toLower = 's' then some (ds, rest3) else some (ds, rest2)
      | [] => some (ds, rest2)

/-- Attempt pattern family 3, `(\d+)\s*(?:pila|pratas?)`, at the head of `s`
(alternatives tried left to right, as the regex engine does). -/
def matchP3At (s : List Char) : Option (List Char × List Char) :=
  let ds := s.takeWhile Char.isDigit
  let rest := (s.dropWhile Char.isDigit).dropWhile isSpaceChar
  if ds = [] then none
  else
    match matchLit (s2l "pila") rest with
    | some rest2 => some (ds, rest2)
    | none =>
      match matchLit (s2l "prata") rest with
      | none => none
      | some rest2 =>
        match rest2 with
        | c :: rest3 => if c.toLower = 's' then some (ds, rest3) else some (ds, rest2)
        | [] => some (ds, rest2)

/-- `re.findall(pattern, message)[0]`: the capture of the leftmost match —
scan the suffixes of the text left to right and return the first capture. -/
def firstCapture (m : List Char → Option (List Char × List Char)) :
    List Char → Option (List Char)
  | [] => (m []).map Prod.fst
  | c :: rest =>
    match m (c :: rest) with
    | some r => some r.1
    | none => firstCapture m rest

/-- `amount_str.replace(',', '.')`. -/
def normComma (s : List Char) : List Char := s.map fun c => if c = ',' then '.' else c

/-- Numeric value of a digit string. -/
def digitsNat (ds : List Char) : ℕ := ds.foldl (fun acc c => 10 * acc + (c.toNat - 48)) 0

/-- Model of Python `float()` on the decimal shapes the money patterns can
produce: an integer part, optionally a dot and a fractional part (at least one
of the two parts non-empty).  Anything else is a `ValueError` (`none`).
Every such numeral is an exact decimal, so the float it denotes is represented
exactly as a rational. -/
def parseAmount (s : List Char) : Option ℚ :=
  let ip := s.takeWhile Char.isDigit
  match s.dropWhile Char.isDigit with
  | [] => if ip = [] then none else some (digitsNat ip : ℚ)
  | c :: rest =>
    if c = '.' then
      let fp := rest.takeWhile Char.isDigit
      if rest.dropWhile Char.isDigit = [] ∧ (ip ≠ [] ∨ fp ≠ []) then
        some ((digitsNat ip : ℚ) + (digitsNat fp : ℚ) / (10 : ℚ) ^ fp.length)
      else none
    else none

/-- The loop of `MessageProcessor._extract_amount`: for each pattern family in
order, if `findall` is non-empty take the first capture, replace `,` by `.`
and parse; on a parse failure `continue` moves to the next family. -/
def extractAmountAux : List (List Char → Option (List Char × List Char)) → List Char → Option ℚ
  | [], _ => none
  | m :: ms, msg =>
    match firstCapture m msg with
    | some cap =>
      match parseAmount (normComma cap) with
      | some v => some v
      | none => extractAmountAux ms msg
    | none => extractAmountAux ms msg

/-- `MessageProcessor.money_patterns`, in declaration order. -/
def moneyMatchers : List (List Char → Option (List Char × List Char)) :=
  [matchP1At, matchP2At, matchP3At]

/-- `MessageProcessor._extract_amount`. -/
def extractAmount (msg : List Char) : Option ℚ := extractAmountAux moneyMatchers msg

/-- `_extract_amount` restricted to the first pattern family only (used to
state that the later families never decide the result). -/
def extractAmountFirstFamily (msg : List Char) : Option ℚ :=
  extractAmountAux [matchP1At] msg

/-! ### Keyword configuration (constructor of `MessageProcessor`) -/

/-- `MessageProcessor.expense_keywords`. -/
def expenseKeywords : List String :=
  ["gastei", "gasto", "paguei", "comprei", "saiu", "custou",
   "despesa", "débito", "conta", "fatura", "pagamento"]

/-- `MessageProcessor.report_keywords`. -/
def reportKeywords : List String :=
  ["relatório", "relatorio", "resumo", "total", "quanto gastei",
   "balanço", "balanco", "extrato", "histórico", "historico"]

/-- Trigger list of category `alimentação` in `category_mapping`. -/
def alimentacaoKws : List String :=
  ["alimentação", "alimentacao", "comida", "lanche", "almoço", "almoco",
   "jantar", "café", "cafe", "restaurante", "mercado", "supermercado",
   "padaria", "açougue", "acougue", "feira", "delivery"]

/-- Trigger list of category `transporte` in `category_mapping`. -/
def transporteKws : List String :=
  ["transporte", "uber", "taxi", "ônibus", "onibus", "metro", "metrô",
   "trem", "passagem", "viagem", "combustível", "combustivel", "gasolina",
   "álcool", "alcool", "diesel", "posto"]

/-- Trigger list of category `combustível` in `category_mapping`. -/
def combustivelKws : List String :=
  ["combustível", "combustivel", "gasolina", "álcool", "alcool",
   "diesel", "posto", "abasteci", "abastecer"]

/-- Trigger list of category `saúde` in `category_mapping`. -/
def saudeKws : List String :=
  ["saúde", "saude", "médico", "medico", "hospital", "farmácia", "farmacia",
   "remédio", "remedio", "consulta", "exame", "dentista", "plano de saúde"]

/-- Trigger list of category `educação` in `category_mapping`. -/
def educacaoKws : List String :=
  ["educação", "educacao", "escola", "faculdade", "curso", "livro",
   "material escolar", "mensalidade", "matrícula", "matricula"]

/-- Trigger list of category `lazer` in `category_mapping`. -/
def lazerKws : List String :=
  ["lazer", "cinema", "teatro", "show", "festa", "bar", "balada",
   "entretenimento", "diversão", "diversao", "jogo", "streaming"]

/-- Trigger list of category `casa` in `category_mapping`. -/
def casaKws : List String :=
  ["casa", "aluguel", "condomínio", "condominio", "luz", "água", "agua",
   "gás", "gas", "internet", "telefone", "limpeza", "móveis", "moveis"]

/-- Trigger list of category `roupas` in `category_mapping`. -/
def roupasKws : List String :=
  ["roupas", "roupa", "calça", "calca", "camisa", "sapato", "tênis", "tenis",
   "vestido", "saia", "blusa", "casaco", "moda", "shopping"]

/-- Trigger list of category `outros` in `category_mapping`. -/
def outrosKws : List String := ["outros", "diverso", "vário", "vario", "geral"]

/-- `MessageProcessor.category_mapping`, an insertion-ordered dict modelled as
an association list in declaration order. -/
def categoryMapping : List (String × List String) :=
  [("alimentação", alimentacaoKws),
   ("transporte", transporteKws),
   ("combustível", combustivelKws),
   ("saúde", saudeKws),
   ("educação", educacaoKws),
   ("lazer", lazerKws),
   ("casa", casaKws),
   ("roupas", roupasKws),
   ("outros", outrosKws)]

/-! ### Message-type identification (`MessageProcessor._identify_message_type`) -/

/-- Python truthiness of an `Optional[float]`: `None` and `0.0` are falsy,
every other value is truthy. -/
def floatTruthy : Option ℚ → Bool
  | none => false
  | some v => v != 0

/-- `MessageProcessor._identify_message_type`: report keywords first, then
expense keywords, then `if self._extract_amount(message):` — note Python
truthiness: an extracted amount of `0.0` is falsy, so only a non-zero
extracted amount yields the implicit-expense classification. -/
def identifyMessageType (msg : List Char) : String :=
  if reportKeywords.any fun k => occursIn (s2l k) msg then "report"
  else if expenseKeywords.any fun k => occursIn (s2l k) msg then "expense"
  else if floatTruthy (extractAmount msg) then "expense"
  else "unknown"

/-! ### Category extraction (`MessageProcessor._extract_category`) -/

/-- One token of the spaCy document consulted by the fallback path: the
part-of-speech tag (`token.pos_`), the stop-word flag (`token.is_stop`) and
the lemma (`token.lemma_`). -/
structure NlpToken where
  pos : String
  stopFlag : Bool
  lem : String

/-- `MessageProcessor._extract_category`.  The spaCy model `self.nlp` is an
external collaborator abstracted as the oracle `nlp`; it is consulted only on
the fallback path, after every keyword test has failed. -/
def extractCategory (nlp : List Char → List NlpToken) (msg : List Char) : String :=
  match categoryMapping.findSome? (fun ck =>
      if ck.2.any fun kw => occursIn (s2l kw) msg then some ck.1 else none) with
  | some category => category
  | none =>
    match (nlp msg).findSome? (fun t =>
        if t.pos = "NOUN" ∧ t.stopFlag = false then
          categoryMapping.findSome? fun ck =>
            if (t.lem.map Char.toLower) ∈ ck.2 then some ck.1 else none
        else none) with
    | some category => category
    | none => "outros"

/-- The oracle of a degraded tagger that recognizes no token; used to
instantiate statements whose truth does not depend on the tagger. -/
def nlpNone : List Char → List NlpToken := fun _ => []

/-! ### Period extraction (`MessageProcessor._extract_period`) -/

/-- The `period_keywords` dict of `_extract_period`, in insertion order. -/
def periodKeywords : List (String × String) :=
  [("hoje", "today"), ("ontem", "yesterday"), ("semana", "week"),
   ("mês", "month"), ("mes", "month"), ("ano", "year"), ("total", "all")]

/-- `MessageProcessor._extract_period`: first keyword (in declaration order)
occurring in the message wins; default `month`. -/
def extractPeriod (msg : List Char) : String :=
  (periodKeywords.findSome? fun kp =>
    if occursIn (s2l kp.1) msg then some kp.2 else none).getD "month"

/-! ### Description extraction (`MessageProcessor._extract_description`)

`re.sub(..., '', text)` is modelled by a left-to-right scan over the original
text that deletes each non-overlapping match; the word boundary `\b` consults
the character before the match, which the scan threads through. -/

/-- Word-character test of an optional character (`none` = outside the text). -/
def wordOpt : Option Char → Bool
  | none => false
  | some c => isWordChar c

/-- Attempt the word-bounded, case-insensitive keyword pattern
`\bkeyword\b` at the head of `s`, given the character `prev` preceding `s` in
the original text.  A `\b` holds between two positions iff exactly one of the
two neighbouring characters is a word character. -/
def kwMatchLen (kw : List Char) (prev : Option Char) (s : List Char) : Option ℕ :=
  let n := kw.length
  if lowerL (s.take n) = lowerL kw ∧ n ≤ s.length ∧
      wordOpt prev ≠ wordOpt s[0]? ∧ wordOpt s[n - 1]? ≠ wordOpt s[n]? then
    some n
  else none

/-- Length of a money-pattern match at the head of `s` (the whole match, not
just the capture group, is what `re.sub` deletes); the money patterns contain
no `\b`, so `prev` is ignored. -/
def moneySubLen (m : List Char → Option (List Char × List Char))
    (_prev : Option Char) (s : List Char) : Option ℕ :=
  (m s).map fun r => s.length - r.2.length

/-- The scan of `re.sub(pattern, '', text)` with a structural fuel parameter:
at each position try the matcher; on a match delete the matched characters and
continue after them, otherwise keep the character.  Every step consumes at
least one character of the text (the matchers used never match the empty
string, and the zero-length guard keeps the character), so fuel equal to the
length of the text is exactly sufficient and the fuel-exhausted case is never
reached on the calls made below. -/
def subScanF (m : Option Char → List Char → Option ℕ) :
    ℕ → Option Char → List Char → List Char
  | 0, _, s => s
  | _ + 1, _, [] => []
  | fuel + 1, prev, c :: rest =>
    match m prev (c :: rest) with
    | some n =>
      if n = 0 then c :: subScanF m fuel (some c) rest
      else subScanF m fuel (some ((c :: rest).getD (n - 1) c)) (List.drop (n - 1) rest)
    | none => c :: subScanF m fuel (some c) rest

/-- `re.sub(pattern, '', text)`: the scan started at the beginning of the
text with no preceding character. -/
def subScan (m : Option Char → List Char → Option ℕ) (s : List Char) : List Char :=
  subScanF m s.length none s

/-- Python `str.split()`: split on runs of whitespace, discarding empties. -/
def splitWSAux : List Char → List Char → List (List Char)
  | [], acc => if acc = [] then [] else [acc.reverse]
  | c :: rest, acc =>
    if isSpaceChar c then
      if acc = [] then splitWSAux rest [] else acc.reverse :: splitWSAux rest []
    else splitWSAux rest (c :: acc)

/-- Python `str.split()` on a message. -/
def splitWS (s : List Char) : List (List Char) := splitWSAux s []

/-- `' '.join(words)`. -/
def joinSpace : List (List Char) → List Char
  | [] => []
  | [w] => w
  | w :: ws => w ++ ' ' :: joinSpace ws

/-- `common_words` of `_extract_description`. -/
def commonWords : List String := ["em", "de", "com", "para", "no", "na", "do", "da", "r$"]

/-- The stripping pipeline of `_extract_description` up to (and including)
`' '.join(description.split())` and the final `.strip()`: remove expense
keywords (word-bounded), then every money-pattern match, then the common
prepositions/articles (word-bounded), then collapse whitespace and trim. -/
def descStripped (msg : List Char) : List Char :=
  let d := msg
  let d := expenseKeywords.foldl (fun acc kw => subScan (kwMatchLen (s2l kw)) acc) d
  let d := moneyMatchers.foldl (fun acc m => subScan (moneySubLen m) acc) d
  let d := commonWords.foldl (fun acc w => subScan (kwMatchLen (s2l w)) acc) d
  stripWS (joinSpace (splitWS d))

/-- `MessageProcessor._extract_description`: the stripped remainder, or the
fixed placeholder when the remainder is empty (`... or 'Gasto não
especificado'`). -/
def extractDescription (msg : List Char) : List Char :=
  let d := descStripped msg
  if d = [] then s2l "Gasto não especificado" else d

/-! ### Confidence (`MessageProcessor._calculate_confidence`) -/

/-- Python truthiness of the `Optional[str]` category argument
(`if category`): false for `None` and for the empty string. -/
def catTruthy : Option String → Bool
  | none => false
  | some c => c != ""

/-- `MessageProcessor._calculate_confidence`.  Python float literals `0.4`,
`0.3`, `0.1` denote exactly representable doubles whose arithmetic here is
modelled exactly in `ℚ` (the claims under check concern the additive
structure, not binary rounding). -/
def calcConfidence (amount : Option ℚ) (category : Option String)
    (description : List Char) : ℚ :=
  let confidence : ℚ := 0
  let confidence := confidence + if amount.isSome then 0.4 else 0
  let confidence := confidence +
    (if catTruthy category ∧ category ≠ some "outros" then 0.3
     else if category = some "outros" then 0.1 else 0)
  let confidence := confidence +
    (if description ≠ [] ∧ description ≠ s2l "Gasto não especificado" then 0.3 else 0)
  min confidence 1

/-- The confidence formula as the specification words it: `0.4` if the amount
is present, `0.3` if the category is present (Python truthiness: non-`None`
and non-empty) and not the sentinel `outros`, `0.1` if the category is exactly
the sentinel, `0.3` if the description is present and not the placeholder,
with the sum clamped to the closed interval `[0, 1]`. -/
def claimConfidence (amount : Option ℚ) (category : Option String)
    (description : List Char) : ℚ :=
  max 0 (min
    ((if amount.isSome then (0.4 : ℚ) else 0)
      + (if catTruthy category ∧ category ≠ some "outros" then 0.3
         else if category = some "outros" then 0.1 else 0)
      + (if description ≠ [] ∧ description ≠ s2l "Gasto não especificado" then 0.3 else 0))
    1)

/-! ### Validation (`MessageProcessor.validate_message`) -/

/-- `MessageProcessor.validate_message`, returning the `(is_valid,
error_message)` pair of the source. -/
def validateMessage (msg : List Char) : Bool × String :=
  if msg = [] ∨ stripWS msg = [] then (false, "Mensagem vazia")
  else if 500 < msg.length then (false, "Mensagem muito longa (máximo 500 caracteres)")
  else (true, "")

/-! ### The processing pipeline (`MessageProcessor.process_message`) -/

/-- The intent-dependent part of the result dictionary: the fields added by
`_extract_expense_data`, by `_extract_report_data`, or nothing. -/
inductive ProcessedData where
  | expenseData (amount : Option ℚ) (category : String) (description : List Char)
      (confidence : ℚ)
  | reportData (category : String) (period : String)
  | noData

/-- The result dictionary of `process_message` (without the wall-clock
`timestamp` entry, which is not a function of the input). -/
structure ProcessResult where
  msgType : String
  originalMessage : List Char
  data : ProcessedData

/-- `MessageProcessor.process_message`: normalize (lowercase, strip), identify
the type, and extract the fields of the identified intent. -/
def processMessage (nlp : List Char → List NlpToken) (message : List Char) : ProcessResult :=
  let m := stripWS (lowerL message)
  let t := identifyMessageType m
  let d :=
    if t = "expense" then
      let amount := extractAmount m
      let category := extractCategory nlp m
      let description := extractDescription m
      ProcessedData.expenseData amount category description
        (calcConfidence amount (some category) description)
    else if t = "report" then
      ProcessedData.reportData (extractCategory nlp m) (extractPeriod m)
    else ProcessedData.noData
  ⟨t, m, d⟩

/-- The `amount` entry of the result, when present. -/
def dataAmount : ProcessedData → Option ℚ
  | .expenseData a _ _ _ => a
  | _ => none

/-- The `category` entry of the result, when present. -/
def dataCategory : ProcessedData → Option String
  | .expenseData _ c _ _ => some c
  | .reportData c _ => some c
  | .noData => none

/-- The `period` entry of the result, when present. -/
def dataPeriod : ProcessedData → Option String
  | .reportData _ p => some p
  | _ => none

/-! ## Helper lemmas -/

/-- Clamping a non-negative quantity to `[0, 1]` is the same as capping it at `1`. -/
theorem clampNonnegEq {x : ℚ} (hx : 0 ≤ x) : max 0 (min x 1) = min x 1 :=
  max_eq_right (le_min hx zero_le_one)

/-! ## C4 — confidence formula -/

/-- C4: for every amount option, category tag and description string, the
confidence score equals the additive formula of the specification (0.4 for a
present amount, 0.3 / 0.1 for the category depending on the sentinel, 0.3 for
a non-placeholder description — presence in Python's truthiness sense), and
the result lies in the closed interval `[0, 1]`. -/
theorem C4_confidence_formula (a : Option ℚ) (c : Option String) (d : List Char) :
    calcConfidence a c d = claimConfidence a c d
      ∧ 0 ≤ calcConfidence a c d ∧ calcConfidence a c d ≤ 1 := by
  unfold calcConfidence claimConfidence
  split_ifs <;>
    norm_num [min_def, max_def]

/-! ## C7 — monotonicity of the confidence score -/

/-- C7: the confidence score is monotone in amount presence — for any fixed
category and description, adding an amount never decreases the score; on an
otherwise field-less extraction it adds exactly 0.4; and the score never
exceeds 1. -/
theorem C7_confidence_monotone (v : ℚ) (a : Option ℚ) (c : Option String) (d : List Char) :
    calcConfidence none c d ≤ calcConfidence (some v) c d
      ∧ calcConfidence (some v) none [] = calcConfidence none none [] + 0.4
      ∧ calcConfidence a c d ≤ 1 := by
  refine ⟨?_, ?_, ?_⟩
  · unfold calcConfidence
    simp only [Option.isSome_none, Option.isSome_some]
    norm_num
  · simp [calcConfidence, catTruthy]
    norm_num [min_def]
  · exact min_le_right _ _

/-! ## C5 — validation -/

/-- C5: validation succeeds exactly on texts whose trimmed form is non-empty
and whose length is at most 500; it fails with the empty-input error exactly
when the trimmed text is empty, and with the too-long error exactly when the
text is non-blank and longer than 500 characters (the emptiness check runs
first, as the specification's ordered wording has it). -/
theorem C5_validate (msg : List Char) :
    (validateMessage msg = (true, "") ↔ stripWS msg ≠ [] ∧ msg.length ≤ 500)
      ∧ (validateMessage msg = (false, "Mensagem vazia") ↔ stripWS msg = [])
      ∧ (validateMessage msg = (false, "Mensagem muito longa (máximo 500 caracteres)") ↔
          stripWS msg ≠ [] ∧ 500 < msg.length) := by
  have hnil : msg = [] → stripWS msg = [] := by rintro rfl; rfl
  unfold validateMessage
  split_ifs with h1 h2
  · have hs : stripWS msg = [] := by rcases h1 with h | h; exacts [hnil h, h]
    refine ⟨?_, ?_, ?_⟩ <;>
      simp [Prod.ext_iff, hs,
        show ("Mensagem vazia" : String) ≠ "Mensagem muito longa (máximo 500 caracteres)"
          from by decide]
  · have hs : stripWS msg ≠ [] := fun h => h1 (Or.inr h)
    refine ⟨?_, ?_, ?_⟩ <;>
      simp [Prod.ext_iff, hs, h2,
        show ¬(msg.length ≤ 500) from by omega,
        show ("Mensagem muito longa (máximo 500 caracteres)" : String) ≠ "Mensagem vazia"
          from by decide]
  · have hs : stripWS msg ≠ [] := fun h => h1 (Or.inr h)
    refine ⟨?_, ?_, ?_⟩ <;> simp [Prod.ext_iff, hs, h2, Nat.not_lt.mp h2]

/-! ## C8 — description never empty -/

/-- C8: description extraction never returns the empty string — whenever the
stripping pipeline leaves nothing, the fixed placeholder is returned
instead. -/
theorem C8_description_nonempty (msg : List Char) :
    extractDescription msg ≠ []
      ∧ (descStripped msg = [] → extractDescription msg = s2l "Gasto não especificado") := by
  unfold extractDescription
  by_cases h : descStripped msg = [] <;> simp [h]
  decide

/-- C8 witness: on `"gastei 50"` the stripping pipeline leaves nothing and the
placeholder is returned. -/
theorem C8_description_nonempty_witness :
    descStripped (s2l "gastei 50") = []
      ∧ extractDescription (s2l "gastei 50") = s2l "Gasto não especificado" :=
  ⟨by decide, (C8_description_nonempty (s2l "gastei 50")).2 (by decide)⟩

/-! ## C1 — intent classification cascade -/

/-- C1 counterexample: the message `"0"` contains no report-trigger and no
expense-trigger keyword and amount extraction succeeds on it (with value
`0.0`), so the claimed cascade classifies it `Expense`; the code classifies it
`unknown`, because `_identify_message_type` tests the extracted amount for
Python truthiness and `0.0` is falsy. -/
theorem C1_counterexample :
    (¬∃ k ∈ reportKeywords, occursIn (s2l k) (s2l "0") = true)
      ∧ (¬∃ k ∈ expenseKeywords, occursIn (s2l k) (s2l "0") = true)
      ∧ extractAmount (s2l "0") = some 0
      ∧ identifyMessageType (s2l "0") = "unknown" := by decide

/-- C1 (amended): for every text, intent classification is the ordered cascade
with first match winning — `report` iff a report-trigger keyword occurs as a
substring; `expense` iff no report trigger occurs and either an
expense-trigger keyword occurs or amount extraction succeeds **with a
non-zero amount**; `unknown` otherwise (in particular when the only
extractable amount is `0`). -/
theorem C1_intent_cascade (msg : List Char) :
    (identifyMessageType msg = "report" ↔
        ∃ k ∈ reportKeywords, occursIn (s2l k) msg = true)
      ∧ (identifyMessageType msg = "expense" ↔
          (¬∃ k ∈ reportKeywords, occursIn (s2l k) msg = true) ∧
            ((∃ k ∈ expenseKeywords, occursIn (s2l k) msg = true) ∨
              ∃ v, extractAmount msg = some v ∧ v ≠ 0))
      ∧ (identifyMessageType msg = "unknown" ↔
          (¬∃ k ∈ reportKeywords, occursIn (s2l k) msg = true) ∧
            (¬∃ k ∈ expenseKeywords, occursIn (s2l k) msg = true) ∧
            ∀ v, extractAmount msg = some v → v = 0) := by
  have hs1 : ("report" : String) ≠ "expense" := by decide
  have hs2 : ("report" : String) ≠ "unknown" := by decide
  have hs3 : ("expense" : String) ≠ "unknown" := by decide
  unfold identifyMessageType
  by_cases hr : reportKeywords.any (fun k => occursIn (s2l k) msg) = true
  · have hre := List.any_eq_true.mp hr
    simp only [if_pos hr]
    exact ⟨by simp [hre], by simp [hs1, hre], by simp [hs2, hre]⟩
  · have hre : ¬∃ k ∈ reportKeywords, occursIn (s2l k) msg = true :=
      fun h => hr (List.any_eq_true.mpr h)
    simp only [if_neg hr]
    by_cases he : expenseKeywords.any (fun k => occursIn (s2l k) msg) = true
    · have hee := List.any_eq_true.mp he
      simp only [if_pos he]
      exact ⟨by simp [hs1.symm, hre], by simp [hre, hee], by simp [hs3, hee]⟩
    · have hee : ¬∃ k ∈ expenseKeywords, occursIn (s2l k) msg = true :=
        fun h => he (List.any_eq_true.mpr h)
      simp only [if_neg he]
      cases ha : extractAmount msg with
      | none =>
        simp only [floatTruthy, Bool.false_eq_true, if_false]
        refine ⟨by simp [hs2.symm, hre], by simp [hs3.symm, hre, hee], ?_⟩
        simp [hre, hee]
      | some v =>
        by_cases hv : v = 0
        · have hru : (if floatTruthy (some v) = true then "expense" else "unknown")
              = "unknown" := by simp [floatTruthy, hv]
          rw [hru]
          refine ⟨by simp [hs2.symm, hre], ?_, ?_⟩
          · constructor
            · intro h; exact absurd h.symm hs3
            · rintro ⟨-, h | ⟨v', hv', hne⟩⟩
              · exact absurd h hee
              · exact absurd (Option.some_inj.mp hv' ▸ hv) hne
          · constructor
            · intro _
              exact ⟨hre, hee, fun v' h => Option.some_inj.mp h ▸ hv⟩
            · intro _; rfl
        · have hrx : (if floatTruthy (some v) = true then "expense" else "unknown")
              = "expense" := by simp [floatTruthy, hv]
          rw [hrx]
          refine ⟨by simp [hs1.symm, hre], ?_, ?_⟩
          · constructor
            · intro _; exact ⟨hre, Or.inr ⟨v, rfl, hv⟩⟩
            · intro _; rfl
          · constructor
            · intro h; exact absurd h hs3
            · rintro ⟨-, -, h⟩; exact absurd (h v rfl) hv

/-! ## Money-pattern lemmas (for C2 and C10) -/

/-- A non-empty digit prefix yields a digit in the list. -/
theorem exists_digit_of_takeWhile {s : List Char} (h : s.takeWhile Char.isDigit ≠ []) :
    ∃ c ∈ s, c.isDigit = true := by
  cases s with
  | nil => exact absurd rfl h
  | cons c t =>
    by_cases hc : c.isDigit = true
    · exact ⟨c, List.mem_cons_self c t, hc⟩
    · rw [List.takeWhile_cons, if_neg hc] at h
      exact absurd rfl h

/-- `takeWhile` keeps a list all of whose entries satisfy the predicate. -/
theorem takeWhile_of_all {p : Char → Bool} :
    ∀ {l : List Char}, (∀ a ∈ l, p a = true) → l.takeWhile p = l := by
  intro l
  induction l with
  | nil => intro _; rfl
  | cons c t ih =>
    intro h
    rw [List.takeWhile_cons, if_pos (h c (List.mem_cons_self c t)),
      ih fun a ha => h a (List.mem_cons_of_mem c ha)]

/-- `dropWhile` drops a list all of whose entries satisfy the predicate. -/
theorem dropWhile_of_all {p : Char → Bool} :
    ∀ {l : List Char}, (∀ a ∈ l, p a = true) → l.dropWhile p = [] := by
  intro l
  induction l with
  | nil => intro _; rfl
  | cons c t ih =>
    intro h
    rw [List.dropWhile_cons, if_pos (h c (List.mem_cons_self c t)),
      ih fun a ha => h a (List.mem_cons_of_mem c ha)]

/-- `takeWhile`/`dropWhile` on an all-satisfying block followed by a
non-satisfying character stop exactly at that character. -/
theorem takeWhile_append_stop {p : Char → Bool} {c : Char} {t : List Char}
    (hc : p c = false) :
    ∀ {l : List Char}, (∀ a ∈ l, p a = true) →
      (l ++ c :: t).takeWhile p = l ∧ (l ++ c :: t).dropWhile p = c :: t := by
  intro l
  induction l with
  | nil =>
    intro _
    refine ⟨?_, ?_⟩
    · rw [List.nil_append, List.takeWhile_cons, if_neg (by simp [hc])]
    · rw [List.nil_append, List.dropWhile_cons, if_neg (by simp [hc])]
  | cons a l ih =>
    intro h
    have ha := h a (List.mem_cons_self a l)
    have ih' := ih fun x hx => h x (List.mem_cons_of_mem a hx)
    refine ⟨?_, ?_⟩
    · rw [List.cons_append, List.takeWhile_cons, if_pos ha, ih'.1]
    · rw [List.cons_append, List.dropWhile_cons, if_pos ha, ih'.2]

/-- A decimal separator is normalized to a dot. -/
theorem normComma_sep {c : Char} (hc : c = '.' ∨ c = ',') :
    (if c = ',' then '.' else c) = '.' := by
  rcases hc with rfl | rfl <;> rfl

/-- Comma normalization leaves a digit unchanged. -/
theorem normComma_digit {c : Char} (hc : c.isDigit = true) :
    (if c = ',' then '.' else c) = c := by
  rw [if_neg]
  rintro rfl
  exact absurd hc (by decide)

/-- Comma normalization leaves a digit string unchanged. -/
theorem normComma_digits : ∀ {l : List Char}, (∀ a ∈ l, a.isDigit = true) → normComma l = l := by
  intro l
  induction l with
  | nil => intro _; rfl
  | cons c t ih =>
    intro h
    show (if c = ',' then '.' else c) :: normComma t = c :: t
    rw [normComma_digit (h c (List.mem_cons_self c t)),
      ih fun a ha => h a (List.mem_cons_of_mem c ha)]

/-- `float()` succeeds on a non-empty digit string and returns its value. -/
theorem parseAmount_digits {l : List Char} (hne : l ≠ []) (h : ∀ a ∈ l, a.isDigit = true) :
    parseAmount l = some (digitsNat l : ℚ) := by
  simp only [parseAmount]
  rw [takeWhile_of_all h, dropWhile_of_all h]
  simp [hne]

/-- `float()` succeeds on a digit string followed by a dot and two digits. -/
theorem parseAmount_frac {l : List Char} {d1 d2 : Char} (hne : l ≠ [])
    (hl : ∀ a ∈ l, a.isDigit = true) (h1 : d1.isDigit = true) (h2 : d2.isDigit = true) :
    parseAmount (l ++ ['.', d1, d2])
      = some ((digitsNat l : ℚ) + (digitsNat [d1, d2] : ℚ) / (10 : ℚ) ^ (2 : ℕ)) := by
  have hstop := takeWhile_append_stop (t := [d1, d2])
    (by decide : ('.' : Char).isDigit = false) hl
  have hd12 : ∀ a ∈ ([d1, d2] : List Char), a.isDigit = true := by
    intro a ha
    rcases List.mem_cons.mp ha with rfl | ha'
    · exact h1
    · rcases List.mem_singleton.mp ha' with rfl
      exact h2
  simp only [parseAmount]
  rw [hstop.1, hstop.2]
  simp [hne, takeWhile_of_all hd12, dropWhile_of_all hd12]

/-- The numeral pattern matches at a digit. -/
theorem matchNumAt_isSome_of_digit {c : Char} (t : List Char) (hc : c.isDigit = true) :
    (matchNumAt (c :: t)).isSome = true := by
  have hds : (c :: t).takeWhile Char.isDigit ≠ [] := by
    rw [List.takeWhile_cons, if_pos hc]
    exact List.cons_ne_nil _ _
  simp only [matchNumAt]
  rw [if_neg hds]
  cases hdw : (c :: t).dropWhile Char.isDigit with
  | nil => rfl
  | cons c1 r1 =>
    cases r1 with
    | nil => rfl
    | cons d1 r2 =>
      cases r2 with
      | nil => rfl
      | cons d2 r3 => split <;> first | rfl | (split <;> rfl)

/-- Pattern family 1 matches at a digit. -/
theorem matchP1At_isSome_of_digit {c : Char} (t : List Char) (hc : c.isDigit = true) :
    (matchP1At (c :: t)).isSome = true := by
  cases t with
  | nil => exact matchNumAt_isSome_of_digit [] hc
  | cons c2 t2 =>
    have hcr : ¬((c = 'r' ∨ c = 'R') ∧ c2 = '$') := by
      rintro ⟨rfl | rfl, -⟩ <;> exact absurd hc (by decide)
    rw [show matchP1At (c :: c2 :: t2) = matchNumAt (c :: c2 :: t2) from by
      simp only [matchP1At]; rw [if_neg hcr]]
    exact matchNumAt_isSome_of_digit _ hc

/-- A successful numeral match means the text holds a digit. -/
theorem matchNumAt_some_digit (s : List Char) (h : (matchNumAt s).isSome = true) :
    ∃ c ∈ s, c.isDigit = true := by
  by_cases hds : s.takeWhile Char.isDigit = []
  · rw [show matchNumAt s = none from by simp [matchNumAt, hds]] at h
    simp at h
  · exact exists_digit_of_takeWhile hds

/-- A successful family-1 match means the text holds a digit. -/
theorem matchP1At_some_digit (s : List Char) (h : (matchP1At s).isSome = true) :
    ∃ c ∈ s, c.isDigit = true := by
  cases s with
  | nil => exact matchNumAt_some_digit [] h
  | cons c1 t1 =>
    cases t1 with
    | nil => exact matchNumAt_some_digit [c1] h
    | cons c2 t2 =>
      by_cases hp : (c1 = 'r' ∨ c1 = 'R') ∧ c2 = '$'
      · rw [show matchP1At (c1 :: c2 :: t2) = (match matchNumAt (t2.dropWhile isSpaceChar) with
            | some r => some r
            | none => matchNumAt (c1 :: c2 :: t2)) from by
          simp only [matchP1At]; rw [if_pos hp]] at h
        cases hm : matchNumAt (t2.dropWhile isSpaceChar) with
        | some r =>
          obtain ⟨ch, hch, hd⟩ := matchNumAt_some_digit _ (by rw [hm]; rfl)
          have hmem : ch ∈ t2 := List.dropWhile_subset _ hch
          exact ⟨ch, List.mem_cons_of_mem _ (List.mem_cons_of_mem _ hmem), hd⟩
        | none =>
          rw [hm] at h
          exact matchNumAt_some_digit _ h
      · rw [show matchP1At (c1 :: c2 :: t2) = matchNumAt (c1 :: c2 :: t2) from by
          simp only [matchP1At]; rw [if_neg hp]] at h
        exact matchNumAt_some_digit _ h

/-- A successful family-2 match means the text holds a digit. -/
theorem matchP2At_some_digit (s : List Char) (h : (matchP2At s).isSome = true) :
    ∃ c ∈ s, c.isDigit = true := by
  by_cases hds : s.takeWhile Char.isDigit = []
  · rw [show matchP2At s = none from by simp [matchP2At, hds]] at h
    simp at h
  · exact exists_digit_of_takeWhile hds

/-- A successful family-3 match means the text holds a digit. -/
theorem matchP3At_some_digit (s : List Char) (h : (matchP3At s).isSome = true) :
    ∃ c ∈ s, c.isDigit = true := by
  by_cases hds : s.takeWhile Char.isDigit = []
  · rw [show matchP3At s = none from by simp [matchP3At, hds]] at h
    simp at h
  · exact exists_digit_of_takeWhile hds

/-- The capture of the numeral pattern always parses after comma
normalization: it is a digit run, optionally followed by a separator and two
digits. -/
theorem matchNumAt_parse {s cap rest : List Char} (h : matchNumAt s = some (cap, rest)) :
    (parseAmount (normComma cap)).isSome = true := by
  have hds : s.takeWhile Char.isDigit ≠ [] := by
    intro hds
    simp [matchNumAt, hds] at h
  have hdig : ∀ a ∈ s.takeWhile Char.isDigit, a.isDigit = true :=
    fun a ha => List.mem_takeWhile_imp ha
  simp only [matchNumAt] at h
  rw [if_neg hds] at h
  cases hdw : s.dropWhile Char.isDigit with
  | nil =>
    rw [hdw] at h
    have h' : some (s.takeWhile Char.isDigit, ([] : List Char)) = some (cap, rest) := h
    have hcap : cap = s.takeWhile Char.isDigit :=
      (congrArg Prod.fst (Option.some_inj.mp h')).symm
    rw [hcap, normComma_digits hdig, parseAmount_digits hds hdig]
    rfl
  | cons c r1 =>
    cases r1 with
    | nil =>
      rw [hdw] at h
      have h' : some (s.takeWhile Char.isDigit, [c]) = some (cap, rest) := h
      have hcap : cap = s.takeWhile Char.isDigit :=
        (congrArg Prod.fst (Option.some_inj.mp h')).symm
      rw [hcap, normComma_digits hdig, parseAmount_digits hds hdig]
      rfl
    | cons d1 r2 =>
      cases r2 with
      | nil =>
        rw [hdw] at h
        have h' : some (s.takeWhile Char.isDigit, [c, d1]) = some (cap, rest) := h
        have hcap : cap = s.takeWhile Char.isDigit :=
          (congrArg Prod.fst (Option.some_inj.mp h')).symm
        rw [hcap, normComma_digits hdig, parseAmount_digits hds hdig]
        rfl
      | cons d2 r3 =>
        rw [hdw] at h
        have h0 : (if (c = '.' ∨ c = ',') ∧ d1.isDigit ∧ d2.isDigit then
            some (s.takeWhile Char.isDigit ++ [c, d1, d2], r3)
          else some (s.takeWhile Char.isDigit, c :: d1 :: d2 :: r3)) = some (cap, rest) := h
        by_cases hP : (c = '.' ∨ c = ',') ∧ d1.isDigit ∧ d2.isDigit
        · rw [if_pos hP] at h0
          have hcap : cap = s.takeWhile Char.isDigit ++ [c, d1, d2] :=
            (congrArg Prod.fst (Option.some_inj.mp h0)).symm
          obtain ⟨hcd, hd1, hd2⟩ := hP
          have hnc : normComma (s.takeWhile Char.isDigit ++ [c, d1, d2])
              = s.takeWhile Char.isDigit ++ ['.', d1, d2] := by
            show List.map _ _ = _
            rw [List.map_append]
            congr 1
            · exact normComma_digits hdig
            · show [if c = ',' then '.' else c, if d1 = ',' then '.' else d1,
                if d2 = ',' then '.' else d2] = ['.', d1, d2]
              rw [normComma_sep hcd, normComma_digit hd1, normComma_digit hd2]
          rw [hcap, hnc, parseAmount_frac hds hdig hd1 hd2]
          rfl
        · rw [if_neg hP] at h0
          have hcap : cap = s.takeWhile Char.isDigit :=
            (congrArg Prod.fst (Option.some_inj.mp h0)).symm
          rw [hcap, normComma_digits hdig, parseAmount_digits hds hdig]
          rfl

/-- The capture of pattern family 1 always parses after comma normalization. -/
theorem matchP1At_parse {s cap rest : List Char} (h : matchP1At s = some (cap, rest)) :
    (parseAmount (normComma cap)).isSome = true := by
  cases s with
  | nil => exact @matchNumAt_parse [] cap rest h
  | cons c1 t1 =>
    cases t1 with
    | nil => exact @matchNumAt_parse [c1] cap rest h
    | cons c2 t2 =>
      by_cases hp : (c1 = 'r' ∨ c1 = 'R') ∧ c2 = '$'
      · rw [show matchP1At (c1 :: c2 :: t2) = (match matchNumAt (t2.dropWhile isSpaceChar) with
            | some r => some r
            | none => matchNumAt (c1 :: c2 :: t2)) from by
          simp only [matchP1At]; rw [if_pos hp]] at h
        cases hm : matchNumAt (t2.dropWhile isSpaceChar) with
        | some r =>
          rw [hm] at h
          exact matchNumAt_parse (hm.trans h)
        | none =>
          rw [hm] at h
          exact matchNumAt_parse h
      · rw [show matchP1At (c1 :: c2 :: t2) = matchNumAt (c1 :: c2 :: t2) from by
          simp only [matchP1At]; rw [if_neg hp]] at h
        exact matchNumAt_parse h

/-- `findall`-head characterization: the first capture is the capture of the
match at the earliest matching position, and every earlier position fails. -/
theorem firstCapture_eq_some_iff (m : List Char → Option (List Char × List Char)) :
    ∀ (s cap : List Char),
      firstCapture m s = some cap ↔
        ∃ i, (m (s.drop i)).map Prod.fst = some cap ∧ ∀ j < i, m (s.drop j) = none := by
  intro s
  induction s with
  | nil =>
    intro cap
    constructor
    · intro h
      exact ⟨0, h, fun j hj => absurd hj (Nat.not_lt_zero j)⟩
    · rintro ⟨i, hi, -⟩
      simpa [firstCapture, List.drop_nil] using hi
  | cons c t ih =>
    intro cap
    cases hm : m (c :: t) with
    | some r =>
      have hfc : firstCapture m (c :: t) = some r.1 := by
        simp [firstCapture, hm]
      constructor
      · intro h
        refine ⟨0, ?_, fun j hj => absurd hj (Nat.not_lt_zero j)⟩
        show (m (c :: t)).map Prod.fst = some cap
        rw [hm]
        rw [hfc] at h
        simpa using h
      · rintro ⟨i, hi, hlt⟩
        cases i with
        | zero =>
          rw [hfc]
          have hi' : (m (c :: t)).map Prod.fst = some cap := hi
          rw [hm] at hi'
          simpa using hi'
        | succ n =>
          have h0 : m (c :: t) = none := hlt 0 (Nat.succ_pos n)
          rw [h0] at hm
          exact absurd hm (by simp)
    | none =>
      have hfc : firstCapture m (c :: t) = firstCapture m t := by
        simp [firstCapture, hm]
      rw [hfc, ih cap]
      constructor
      · rintro ⟨i, hi, hlt⟩
        refine ⟨i + 1, ?_, ?_⟩
        · simpa [List.drop_succ_cons] using hi
        · intro j hj
          cases j with
          | zero => exact hm
          | succ j' =>
            have := hlt j' (by omega)
            simpa [List.drop_succ_cons] using this
      · rintro ⟨i, hi, hlt⟩
        cases i with
        | zero =>
          have hi' : (m (c :: t)).map Prod.fst = some cap := hi
          rw [hm] at hi'
          simp at hi'
        | succ n =>
          refine ⟨n, ?_, ?_⟩
          · simpa [List.drop_succ_cons] using hi
          · intro j hj
            have := hlt (j + 1) (by omega)
            simpa [List.drop_succ_cons] using this

/-- A digit anywhere in the text makes the family-1 scan succeed. -/
theorem firstCapture_P1_isSome_of_digit :
    ∀ {s : List Char}, (∃ c ∈ s, c.isDigit = true) →
      (firstCapture matchP1At s).isSome = true := by
  intro s
  induction s with
  | nil => rintro ⟨c, hc, -⟩; simp at hc
  | cons c t ih =>
    rintro ⟨d, hd, hdig⟩
    cases hm : matchP1At (c :: t) with
    | some r => simp [firstCapture, hm]
    | none =>
      have hcd : ¬c.isDigit = true := by
        intro hcc
        have := matchP1At_isSome_of_digit t hcc
        rw [hm] at this
        simp at this
      rcases List.mem_cons.mp hd with rfl | hdt
      · exact absurd hdig hcd
      · have := ih ⟨d, hdt, hdig⟩
        simpa [firstCapture, hm] using this

/-- A successful scan of a digit-requiring matcher means a digit occurs. -/
theorem exists_digit_of_firstCapture
    {m : List Char → Option (List Char × List Char)}
    (hm : ∀ s, (m s).isSome = true → ∃ c ∈ s, c.isDigit = true)
    {s cap : List Char} (h : firstCapture m s = some cap) :
    ∃ c ∈ s, c.isDigit = true := by
  obtain ⟨i, hi, -⟩ := (firstCapture_eq_some_iff m s cap).mp h
  have hiS : (m (s.drop i)).isSome = true := by
    cases hmi : m (s.drop i) with
    | none => rw [hmi] at hi; simp at hi
    | some r => rfl
  obtain ⟨ch, hch, hd⟩ := hm _ hiS
  exact ⟨ch, List.drop_subset _ _ hch, hd⟩

/-- The first capture of the family-1 scan always parses. -/
theorem firstCapture_P1_parse {s cap : List Char}
    (h : firstCapture matchP1At s = some cap) :
    (parseAmount (normComma cap)).isSome = true := by
  obtain ⟨i, hi, -⟩ := (firstCapture_eq_some_iff matchP1At s cap).mp h
  cases hmi : matchP1At (s.drop i) with
  | none => rw [hmi] at hi; simp at hi
  | some r =>
    rw [hmi] at hi
    simp at hi
    have := @matchP1At_parse (s.drop i) r.1 r.2 (by rw [hmi])
    rwa [hi] at this

/-- When the first pattern family yields a match, `_extract_amount` returns
the parse of its comma-normalized first capture. -/
theorem extractAmount_eq_parse {s cap : List Char}
    (h : firstCapture matchP1At s = some cap) :
    extractAmount s = parseAmount (normComma cap) := by
  obtain ⟨v, hv⟩ := Option.isSome_iff_exists.mp (firstCapture_P1_parse h)
  simp [extractAmount, extractAmountAux, moneyMatchers, h, hv]

/-- The first pattern family alone decides `_extract_amount`: the `reais` and
slang families can never be the family that determines the result. -/
theorem extractAmount_eq_firstFamily (s : List Char) :
    extractAmount s = extractAmountFirstFamily s := by
  cases h : firstCapture matchP1At s with
  | some cap =>
    obtain ⟨v, hv⟩ := Option.isSome_iff_exists.mp (firstCapture_P1_parse h)
    rw [extractAmount_eq_parse h, hv]
    simp [extractAmountFirstFamily, extractAmountAux, h, hv]
  | none =>
    have hnod : ¬∃ c ∈ s, c.isDigit = true := by
      intro hd
      have := firstCapture_P1_isSome_of_digit hd
      rw [h] at this
      simp at this
    have h2 : firstCapture matchP2At s = none := by
      cases h2 : firstCapture matchP2At s with
      | none => rfl
      | some cap => exact absurd (exists_digit_of_firstCapture matchP2At_some_digit h2) hnod
    have h3 : firstCapture matchP3At s = none := by
      cases h3 : firstCapture matchP3At s with
      | none => rfl
      | some cap => exact absurd (exists_digit_of_firstCapture matchP3At_some_digit h3) hnod
    simp [extractAmount, extractAmountFirstFamily, extractAmountAux, moneyMatchers, h, h2, h3]

/-! ## C2 — amount extraction order -/

/-- C2: amount extraction tries the pattern families in order and the first
family with a match wins (its comma-normalized first capture is parsed);
within a family the capture is the one of the match at the earliest position
in the text; and on the normalized text `"comprei roupas por r$ 85,50"` the
extracted amount is `85.5`. -/
theorem C2_amount_extraction :
    extractAmount (s2l "comprei roupas por r$ 85,50") = some (171 / 2)
      ∧ (∀ (m : List Char → Option (List Char × List Char)) (s cap : List Char),
          firstCapture m s = some cap ↔
            ∃ i, (m (s.drop i)).map Prod.fst = some cap ∧ ∀ j < i, m (s.drop j) = none)
      ∧ (∀ s cap : List Char, firstCapture matchP1At s = some cap →
          extractAmount s = parseAmount (normComma cap)) := by
  refine ⟨?_, fun m s cap => firstCapture_eq_some_iff m s cap,
    fun s cap h => extractAmount_eq_parse h⟩
  have h : extractAmount (s2l "comprei roupas por r$ 85,50") =
      some ((digitsNat (s2l "85") : ℚ) + (digitsNat (s2l "50") : ℚ) / (10 : ℚ) ^ 2) := rfl
  rw [h, show digitsNat (s2l "85") = 85 from by decide,
    show digitsNat (s2l "50") = 50 from by decide]
  norm_num

/-- C2 witness: on `"r$ 85,50"` the first pattern family captures `"85,50"`
at the earliest position, and the extracted amount is the parse of its
comma-normalized form. -/
theorem C2_amount_extraction_witness :
    extractAmount (s2l "r$ 85,50") = parseAmount (normComma (s2l "85,50")) :=
  C2_amount_extraction.2.2 (s2l "r$ 85,50") (s2l "85,50") (by decide)

/-! ## C10 — amount extraction succeeds exactly on digit-bearing texts -/

/-- C10: amount extraction returns a value iff the text contains a decimal
digit; the first pattern family already matches any digit run and its capture
always parses after comma normalization, so the `reais` and slang families
never determine the result. -/
theorem C10_amount_iff_digit (msg : List Char) :
    ((extractAmount msg).isSome = true ↔ ∃ c ∈ msg, c.isDigit = true)
      ∧ extractAmount msg = extractAmountFirstFamily msg := by
  refine ⟨⟨?_, ?_⟩, extractAmount_eq_firstFamily msg⟩
  · intro h
    rw [extractAmount_eq_firstFamily msg] at h
    cases hfc : firstCapture matchP1At msg with
    | none =>
      rw [show extractAmountFirstFamily msg = none from by
        simp [extractAmountFirstFamily, extractAmountAux, hfc]] at h
      simp at h
    | some cap => exact exists_digit_of_firstCapture matchP1At_some_digit hfc
  · intro hd
    obtain ⟨cap, hcap⟩ := Option.isSome_iff_exists.mp (firstCapture_P1_isSome_of_digit hd)
    rw [extractAmount_eq_parse hcap]
    exact firstCapture_P1_parse hcap

/-! ## C9 — period extraction -/

/-- C9: period extraction checks the fixed keyword-to-period mapping in its
fixed declaration order with the first occurring keyword winning, and defaults
to `month` when no period keyword occurs; in particular the two report
examples have periods `month` (default) and `week`. -/
theorem C9_period_order (msg : List Char) :
    ((∀ kp ∈ periodKeywords, occursIn (s2l kp.1) msg = false) → extractPeriod msg = "month")
      ∧ (∀ (pre post : List (String × String)) (k p : String),
          periodKeywords = pre ++ (k, p) :: post →
          occursIn (s2l k) msg = true →
          (∀ kp ∈ pre, occursIn (s2l kp.1) msg = false) →
          extractPeriod msg = p)
      ∧ periodKeywords = [("hoje", "today"), ("ontem", "yesterday"), ("semana", "week"),
          ("mês", "month"), ("mes", "month"), ("ano", "year"), ("total", "all")]
      ∧ dataPeriod (processMessage nlpNone (s2l "Relatório alimentação")).data = some "month"
      ∧ dataPeriod (processMessage nlpNone (s2l "Balanço da semana")).data = some "week" := by
  refine ⟨?_, ?_, rfl, by decide, by decide⟩
  · intro h
    unfold extractPeriod
    have hnone : (periodKeywords.findSome? fun kp =>
        if occursIn (s2l kp.1) msg = true then some kp.2 else none) = none := by
      rw [List.findSome?_eq_none_iff]
      intro kp hkp
      simp [h kp hkp]
    rw [hnone]
    rfl
  · intro pre post k p hsplit hk hpre
    unfold extractPeriod
    rw [hsplit, List.findSome?_append]
    have hprenone : (pre.findSome? fun kp =>
        if occursIn (s2l kp.1) msg = true then some kp.2 else none) = none := by
      rw [List.findSome?_eq_none_iff]
      intro kp hkp
      simp [hpre kp hkp]
    rw [hprenone]
    simp [List.findSome?_cons, hk]

/-- C9 witness: `"semana"` is the first period keyword occurring in
`"balanço da semana"`, so the period is `week`. -/
theorem C9_period_order_witness : extractPeriod (s2l "balanço da semana") = "week" :=
  (C9_period_order (s2l "balanço da semana")).2.1
    [("hoje", "today"), ("ontem", "yesterday")]
    [("mês", "month"), ("mes", "month"), ("ano", "year"), ("total", "all")]
    "semana" "week" (by decide) (by decide) (by decide)

/-! ## Category-extraction order (for C3 and C6) -/

/-- The keyword pass of `_extract_category` short-circuits: when some trigger
of a category occurs in the message and no trigger of any earlier-declared
category does, that category is returned, whatever the tagger oracle says. -/
theorem extractCategory_keyword_first
    (nlp : List Char → List NlpToken) (msg : List Char)
    (pre post : List (String × List String)) (cat : String) (kws : List String)
    (hsplit : categoryMapping = pre ++ (cat, kws) :: post)
    (hany : (kws.any fun kw => occursIn (s2l kw) msg) = true)
    (hpre : ∀ ck ∈ pre, ∀ kw ∈ ck.2, occursIn (s2l kw) msg = false) :
    extractCategory nlp msg = cat := by
  have hprenone : (pre.findSome? fun ck =>
      if (ck.2.any fun kw => occursIn (s2l kw) msg) = true then some ck.1 else none)
      = none := by
    rw [List.findSome?_eq_none_iff]
    intro ck hck
    rw [if_neg]
    intro hanyck
    obtain ⟨kw, hkw, hocc⟩ := List.any_eq_true.mp hanyck
    rw [hpre ck hck kw hkw] at hocc
    exact Bool.false_ne_true hocc
  have hfs : ((pre ++ (cat, kws) :: post).findSome? fun ck =>
      if (ck.2.any fun kw => occursIn (s2l kw) msg) = true then some ck.1 else none)
      = some cat := by
    rw [List.findSome?_append, hprenone]
    simp [List.findSome?_cons, List.any_eq_true.mp hany]
  unfold extractCategory
  rw [hsplit, hfs]

/-! ## C3 — category declaration order and the shared trigger -/

/-- C3: category extraction iterates categories (and their triggers) in
declaration order and returns the first category with an occurring trigger;
the trigger `"combustível"` belongs to both the `transporte` and the
`combustível` lists, `transporte` is declared first, so a message containing
`"combustível"` never resolves to the later category; and
`process("Combustível 120")` yields intent `expense`, amount `120`, category
`transporte`. -/
theorem C3_category_priority :
    (∀ (nlp : List Char → List NlpToken) (msg : List Char)
        (pre post : List (String × List String)) (cat : String) (kws : List String),
        categoryMapping = pre ++ (cat, kws) :: post →
        (kws.any fun kw => occursIn (s2l kw) msg) = true →
        (∀ ck ∈ pre, ∀ kw ∈ ck.2, occursIn (s2l kw) msg = false) →
        extractCategory nlp msg = cat)
      ∧ "combustível" ∈ transporteKws
      ∧ "combustível" ∈ combustivelKws
      ∧ categoryMapping.map Prod.fst = ["alimentação", "transporte", "combustível",
          "saúde", "educação", "lazer", "casa", "roupas", "outros"]
      ∧ (∀ (nlp : List Char → List NlpToken) (msg : List Char),
          occursIn (s2l "combustível") msg = true →
          extractCategory nlp msg = "alimentação" ∨ extractCategory nlp msg = "transporte")
      ∧ (processMessage nlpNone (s2l "Combustível 120")).msgType = "expense"
      ∧ dataAmount (processMessage nlpNone (s2l "Combustível 120")).data = some 120
      ∧ dataCategory (processMessage nlpNone (s2l "Combustível 120")).data
          = some "transporte" := by
  refine ⟨fun nlp msg pre post cat kws h1 h2 h3 =>
      extractCategory_keyword_first nlp msg pre post cat kws h1 h2 h3,
    by decide, by decide, by decide, ?_, by decide, by decide, by decide⟩
  intro nlp msg h
  by_cases ha : (alimentacaoKws.any fun kw => occursIn (s2l kw) msg) = true
  · left
    exact extractCategory_keyword_first nlp msg [] _ "alimentação" alimentacaoKws rfl ha
      (by intro ck hck; simp at hck)
  · right
    refine extractCategory_keyword_first nlp msg [("alimentação", alimentacaoKws)] _
      "transporte" transporteKws rfl ?_ ?_
    · exact List.any_eq_true.mpr ⟨"combustível", by decide, h⟩
    · intro ck hck kw hkw
      rcases List.mem_singleton.mp hck with rfl
      have hfalse : (alimentacaoKws.any fun kw => occursIn (s2l kw) msg) = false :=
        (Bool.not_eq_true _) ▸ ha
      exact (Bool.not_eq_true _) ▸ (List.any_eq_false.mp hfalse kw hkw)

/-- C3 witness: on the message `"combustível"` itself, extraction resolves to
`alimentação` or `transporte` — never to the later-declared `combustível`. -/
theorem C3_category_priority_witness :
    extractCategory nlpNone (s2l "combustível") = "alimentação"
      ∨ extractCategory nlpNone (s2l "combustível") = "transporte" :=
  C3_category_priority.2.2.2.2.1 nlpNone (s2l "combustível") (by decide)

/-! ## C6 — two triggers of one category -/

/-- C6 counterexample: `"gasolina"` and `"diesel"` are both triggers of the
category `combustível` and both occur in the message `"gasolina diesel"`, yet
extraction returns `transporte` (declared earlier, sharing those triggers),
not `combustível` — so a category with two occurring triggers is not always
the one returned. -/
theorem C6_counterexample :
    "gasolina" ∈ combustivelKws ∧ "diesel" ∈ combustivelKws
      ∧ ("combustível", combustivelKws) ∈ categoryMapping
      ∧ occursIn (s2l "gasolina") (s2l "gasolina diesel") = true
      ∧ occursIn (s2l "diesel") (s2l "gasolina diesel") = true
      ∧ extractCategory nlpNone (s2l "gasolina diesel") = "transporte"
      ∧ ("transporte" : String) ≠ "combustível" := by decide

/-- C6 (amended): for any category of the table with two (or more) distinct
trigger tokens occurring as substrings of a message, extraction returns that
category regardless of which trigger appears first in the raw text — provided
no earlier-declared category has an occurring trigger (declaration order is
the overriding tie-break). -/
theorem C6_multi_trigger
    (nlp : List Char → List NlpToken) (msg : List Char)
    (pre post : List (String × List String)) (cat : String) (kws : List String)
    (t1 t2 : String)
    (hsplit : categoryMapping = pre ++ (cat, kws) :: post)
    (h1 : t1 ∈ kws) (_h2 : t2 ∈ kws) (_hne : t1 ≠ t2)
    (ho1 : occursIn (s2l t1) msg = true) (_ho2 : occursIn (s2l t2) msg = true)
    (hpre : ∀ ck ∈ pre, ∀ kw ∈ ck.2, occursIn (s2l kw) msg = false) :
    extractCategory nlp msg = cat :=
  extractCategory_keyword_first nlp msg pre post cat kws hsplit
    (List.any_eq_true.mpr ⟨t1, h1, ho1⟩) hpre

/-- C6 witness: `"comida"` and `"lanche"` are two triggers of the
first-declared category `alimentação`; on `"comida lanche"` (and on
`"lanche comida"` alike, by the theorem) extraction returns `alimentação`. -/
theorem C6_multi_trigger_witness :
    extractCategory nlpNone (s2l "comida lanche") = "alimentação" :=
  C6_multi_trigger nlpNone (s2l "comida lanche") [] categoryMapping.tail
    "alimentação" alimentacaoKws "comida" "lanche" (by decide) (by decide) (by decide)
    (by decide) (by decide) (by decide) (by intro ck hck; simp at hck)

/-! ## Concrete witnesses for the remaining claims -/

/-- C1 witness: a message containing the report trigger `"relatório"` is
classified `report` by the cascade. -/
theorem C1_intent_cascade_witness : identifyMessageType (s2l "relatório") = "report" :=
  (C1_intent_cascade (s2l "relatório")).1.mpr (by decide)

/-- C4 witness: the confidence of a fully-extracted expense equals the
specification's additive formula at that input. -/
theorem C4_confidence_formula_witness :
    calcConfidence (some 50) (some "alimentação") (s2l "almoço")
      = claimConfidence (some 50) (some "alimentação") (s2l "almoço") :=
  (C4_confidence_formula (some 50) (some "alimentação") (s2l "almoço")).1

/-- C5 witness: a short non-blank message validates successfully. -/
theorem C5_validate_witness : validateMessage (s2l "oi") = (true, "") :=
  (C5_validate (s2l "oi")).1.mpr (by decide)

/-- C7 witness: adding an amount to an otherwise field-less extraction raises
the confidence by exactly 0.4. -/
theorem C7_confidence_monotone_witness :
    calcConfidence (some 50) none [] = calcConfidence none none [] + 0.4 :=
  (C7_confidence_monotone 50 none none []).2.1

/-- C10 witness: a digit-bearing message always yields an amount. -/
theorem C10_amount_iff_digit_witness :
    (extractAmount (s2l "paguei 30 no almoço")).isSome = true :=
  (C10_amount_iff_digit (s2l "paguei 30 no almoço")).1.mpr (by decide)

end ExpenseNLP
